import Mathlib

/-!
Shallow embedding of the four Quantopian strategy scripts of this repository
(Black_Cat_Acquirer_Multiple, Guy_Fleury_Piotroski-F-Score, My_Magic_Formula,
My_Value_Long_only_Algo) and proofs about their factor, filter, selection,
scheduling and order-placement logic.

Modelling conventions:
* numpy float windows are modelled as lists; `Option Int` (or `Option ℚ`) cells
  model scalars that may be NaN (`none` = NaN) where only presence matters;
  a small symbolic IEEE-754 value type `FVal` is used where the distinction
  between NaN, signed infinity and finite values matters.  Finite arithmetic is
  modelled exactly by rationals: only the NaN/infinity/zero structure of the
  claims depends on the float semantics, never on rounding.
* dates (`numpy.datetime64`) are modelled as integer day counts, so 52 weeks
  are 364 days.
* the pipeline window arrays have shape (window_length, number_of_assets):
  the outer list index is time, the inner index is the security.
-/

/-! ## Trailing-twelve-months factor
(`TrailingTwelveMonths.compute`, Black_Cat_Acquirer_Multiple.py lines 85-95) -/

/-- One security's column of the TTM window: `(value, as-of date)` pairs in
window order, the as-of date counted in days. -/
abbrev QPair := Int × Int

/-- The boolean mask `d + np.timedelta64(52, 'W') > d[-1]` of
`TrailingTwelveMonths.compute`, with 52 weeks rendered as 364 days:
`d` is kept when it lies strictly within 52 weeks of the window's last date. -/
def ttmMask (dLast d : Int) : Bool := d + 364 > dLast

/-- The effect of indexing the masked values by
`np.unique(masked_dates, return_index=True)[1]`: for each distinct as-of date
keep the first pair carrying it, in window order.  (np.unique enumerates the
distinct dates in sorted order, but the subsequent `.sum()` makes the
enumeration order irrelevant.) -/
def dedupByDateAux (seen : List Int) : List QPair → List QPair
  | [] => []
  | p :: rest =>
    if p.2 ∈ seen then dedupByDateAux seen rest
    else p :: dedupByDateAux (p.2 :: seen) rest

/-- Deduplication by as-of date, first occurrence kept. -/
def dedupByDate (l : List QPair) : List QPair := dedupByDateAux [] l

/-- `TrailingTwelveMonths.compute` for one security column: mask the pairs to
the 52-week window ending at the last as-of date of the column, deduplicate by
as-of date keeping the first occurrence, and sum the surviving values. -/
def ttmFactor (pairs : List QPair) : Int :=
  let dLast := (pairs.map Prod.snd).getLastD 0
  ((dedupByDate (pairs.filter (fun p => ttmMask dLast p.2))).map Prod.fst).sum

/-! ## Forward fill
(`nanfill`, My_Value_Long_only_Algo.py lines 279-284) -/

/-- A window cell: `none` models NaN. -/
abbrev Cell := Option Int

/-- One row of `idx = np.where(~mask, np.arange(mask.shape[1]), 0)`, built from
column offset `j`: a non-NaN cell is marked with its own column index, a NaN
cell with 0. -/
def markIdx (j : Nat) : List Cell → List Nat
  | [] => []
  | v :: vs => (if v.isSome then j else 0) :: markIdx (j + 1) vs

/-- One row of `np.maximum.accumulate(idx, axis=1, out=idx)`, with running
maximum `a`: the accumulation runs along the columns of a row. -/
def maxAccum (a : Nat) : List Nat → List Nat
  | [] => []
  | x :: xs => max a x :: maxAccum (max a x) xs

/-- The accumulated index row used by the masked assignment of `nanfill`. -/
def idxRow (row : List Cell) : List Nat := maxAccum 0 (markIdx 0 row)

/-- One row of the masked assignment
`arr[mask] = arr[np.nonzero(mask)[0], idx[mask]]`: each NaN cell is replaced by
the cell of the same row that the accumulated index points at; the right-hand
side is a fancy-indexing copy, so every read sees the array as it was before
the assignment. -/
def nanfillRow (row : List Cell) : List Cell :=
  (row.zip (idxRow row)).map (fun p => if p.1.isSome then p.1 else row.getD p.2 none)

/-- `nanfill` on the whole 2-D window: because `np.arange(mask.shape[1])` and
the `axis=1` accumulation both run along the second (security) axis, each time
row is processed independently. -/
def nanfill (arr : List (List Cell)) : List (List Cell) := arr.map nanfillRow

/-- Textbook forward fill carrying the most recent non-missing value, as the
specification words it ("replace a NaN with the most recent preceding non-NaN
value; if no prior value exists, leave as NaN"); used to characterise what
`nanfillRow` computes along one row. -/
def ffillCarry (c : Cell) : List Cell → List Cell
  | [] => []
  | v :: vs =>
    match v with
    | some x => some x :: ffillCarry (some x) vs
    | none => c :: ffillCarry c vs

/-! ## The in-place behaviour of nanfill
(`nanfill` and its callers such as `Price_to_Book.compute`,
My_Value_Long_only_Algo.py lines 192-200 and 279-284) -/

/-- A heap of 2-D windows; a numpy array reference is an index into it. -/
abbrev Heap := List (List (List Cell))

/-- The call `pb = nanfill(pb)` as the caller sees it: the masked assignment
`arr[mask] = ...` updates the array object at reference `r` in place (the
right-hand side having been read out of it first), and `return arr` hands the
very same reference back.  Python-level object identity is modelled by the
shared heap index. -/
def callNanfill (h : Heap) (r : Nat) : Heap × Nat :=
  (h.set r (nanfill (h.getD r [])), r)

/-! ## Ratio factors and NaN handling
(`Earnings_Yield.compute`, My_Magic_Formula.py lines 161-163 and
My_Value_Long_only_Algo.py lines 271-273; selection in
`before_trading_start`, My_Magic_Formula.py lines 90-102) -/

/-- An IEEE-754 double as the ratio factors see it: NaN, a signed infinity
(`true` marks the negative one), or a finite value modelled exactly by a
rational.  Signed zero is not distinguished; no claim depends on it. -/
inductive FVal : Type
  | nan : FVal
  | inf : Bool → FVal
  | fin : ℚ → FVal
deriving DecidableEq

/-- Test for NaN. -/
def FVal.isNan : FVal → Bool
  | .nan => true
  | _ => false

/-- Test for either infinity. -/
def FVal.isInf : FVal → Bool
  | .inf _ => true
  | _ => false

/-- Test for (unsigned) zero. -/
def FVal.isZero : FVal → Bool
  | .fin q => q = 0
  | _ => false

/-- IEEE-754 division as numpy performs it elementwise, which warns but never
raises: NaN operands and 0/0 and inf/inf give NaN, a nonzero finite numerator
over zero gives a signed infinity. -/
def fdiv : FVal → FVal → FVal
  | .nan, _ => .nan
  | .inf _, .nan => .nan
  | .fin _, .nan => .nan
  | .inf _, .inf _ => .nan
  | .inf s, .fin q => .inf (s != decide (q < 0))
  | .fin _, .inf _ => .fin 0
  | .fin q, .fin p =>
    if p = 0 then (if q = 0 then .nan else .inf (decide (q < 0)))
    else .fin (q / p)

/-- `Earnings_Yield.compute`: `ey = ebit[-1] / ev[-1]; out[:] = ey`, an
elementwise division along the security axis of the two one-row windows. -/
def earningsYieldCompute (ebit ev : List FVal) : List FVal :=
  List.zipWith fdiv ebit ev

/-- One pipeline-output row of My_Magic_Formula as the selection reads it:
the security id, its `earnings_yield` column and its `MagicFormula_rank`
column.  (The real frame carries three more numeric columns; `dropna()` drops
a row when any column is NaN, so modelling a subset of the columns only makes
the model keep more rows.) -/
structure ERow : Type where
  sec : Nat
  ey : FVal
  mfRank : FVal
deriving DecidableEq

/-- Total comparison used for `sort_values`: numeric order with every NaN
placed last, as pandas does. -/
def fvalLe : FVal → FVal → Bool
  | _, .nan => true
  | .nan, _ => false
  | .inf s, .inf t => s || !t
  | .inf s, .fin _ => s
  | .fin _, .inf t => !t
  | .fin q, .fin p => q ≤ p

/-- `context.output.sort_values(['MagicFormula_rank'], ascending=True)`,
rendered with a deterministic insertion sort (pandas' sort kind only affects
the order of ties, which no theorem below depends on). -/
def sortByMfRank (rows : List ERow) : List ERow :=
  List.insertionSort (fun a b => fvalLe a.mfRank b.mfRank = true) rows

/-- `before_trading_start` of My_Magic_Formula: sort by the Magic Formula
rank ascending, take `.head(25)`, then `.dropna()` (keep a row only when none
of its modelled columns is NaN). -/
def buyList (rows : List ERow) : List ERow :=
  ((sortByMfRank rows).take 25).filter (fun r => !r.ey.isNan && !r.mfRank.isNan)

/-! ## The sector-exclusion predicate of My_Magic_Formula
(`make_pipeline`, My_Magic_Formula.py lines 54-65) -/

/-- A Python object as it occurs in the expression
`(Sector != 103) & (Sector != 207)` of `make_pipeline`: the operands are the
classifier *class* `Sector` itself (no instance, no `.latest`) and two int
literals. -/
inductive PyObj : Type
  | sectorClass : PyObj
  | intLit : Int → PyObj
deriving DecidableEq

/-- Python `!=` on those objects: a class object never equals an int literal,
so the comparison is decided without consulting any security. -/
def pyNe (a b : PyObj) : Bool := a != b

/-- The predicate `not_Finan_and_Ulti` of `make_pipeline` (line 62).  Because
it compares the class object with the sector codes, it is a constant, not a
per-security filter. -/
def not_Finan_and_Ulti : Bool :=
  pyNe .sectorClass (.intLit 103) && pyNe .sectorClass (.intLit 207)

/-- Per-security data consumed by the Magic Formula universe screen. -/
structure SecInfo : Type where
  qTradable : Bool
  sectorCode : Option Int
  marketCap : Int
deriving DecidableEq

/-- The final `universe` of `make_pipeline` (line 65): QTradableStocksUS,
`Sector().notnull()`, market cap above one billion, conjoined with the
constant `not_Finan_and_Ulti` (a boolean constant folds into the pipeline
filter expression unchanged). -/
def magicUniverse (s : SecInfo) : Bool :=
  s.qTradable && s.sectorCode.isSome && decide (1000000000 < s.marketCap)
    && not_Finan_and_Ulti

/-! ## Anchor-month rebalance gating
(`initialize` line 65 and `rebalance` lines 218-232,
Black_Cat_Acquirer_Multiple.py) -/

/-- The per-run context field driving the yearly rebalance gate. -/
structure BlackCatCtx : Type where
  month_to_run : Int
deriving DecidableEq

/-- `initialize` stores `context.month_to_run = -1`. -/
def initBlackCatCtx : BlackCatCtx := ⟨-1⟩

/-- One invocation of `rebalance`: on the first call (`month_to_run == -1`)
the current month is recorded and `rebalanceNow` is set; afterwards
`rebalanceNow` is set exactly when the current month equals the recorded one.
The boolean returned is `rebalanceNow`, the guard of the order-submission
block. -/
def rebalanceStep (c : BlackCatCtx) (todayMonth : Int) : BlackCatCtx × Bool :=
  if c.month_to_run = -1 then (⟨todayMonth⟩, true)
  else (c, c.month_to_run == todayMonth)

/-- The rebalance callback run over a sequence of scheduled months, collecting
whether each invocation submitted orders. -/
def runRebalances (c : BlackCatCtx) : List Int → List Bool
  | [] => []
  | m :: ms =>
    let s := rebalanceStep c m
    s.2 :: runRebalances s.1 ms

/-! ## Equal-weight map
(`rebalance`, Black_Cat_Acquirer_Multiple.py lines 236-247) -/

/-- The `context.weights` dictionary built at a firing rebalance:
`weights[sec] = 0.99 / NUM_STOCKS_TO_BUY` for every security of the pipeline
list that `data.can_trade` accepts, with `NUM_STOCKS_TO_BUY = 25`. -/
def buildWeights (secs : List Nat) (canTrade : Nat → Bool) : List (Nat × ℚ) :=
  (secs.filter canTrade).map (fun s => (s, (99 / 100 : ℚ) / 25))

/-! ## Piotroski long/short strategy
(`initialize` lines 140-159 and `before_trading_start` lines 169-178,
Guy_Fleury_Piotroski-F-Score.py) -/

/-- Fundamental data of one security as the nine indicator factors read it:
field `…0` is the first window row (`[0]`, 22 trading days back), `…1` the
last (`[-1]`). -/
structure PiotroskiData : Type where
  roa0 : ℚ
  roa1 : ℚ
  cashFlow1 : ℚ
  cashFlowOps1 : ℚ
  ltd0 : ℚ
  ltd1 : ℚ
  cr0 : ℚ
  cr1 : ℚ
  so0 : ℚ
  so1 : ℚ
  gm0 : ℚ
  gm1 : ℚ
  at0 : ℚ
  at1 : ℚ
deriving DecidableEq

/-- `astype(int)` on a comparison result. -/
def bool01 (b : Bool) : Nat := if b then 1 else 0

/-- `ROA`: `roa[-1] > 0`. -/
def roaFactor (d : PiotroskiData) : Nat := bool01 (decide (0 < d.roa1))

/-- `ROAChange`: `roa[-1] > roa[0]`. -/
def roaChangeFactor (d : PiotroskiData) : Nat := bool01 (decide (d.roa0 < d.roa1))

/-- `CashFlow`: `cash_flow[-1] > 0`. -/
def cashFlowFactor (d : PiotroskiData) : Nat := bool01 (decide (0 < d.cashFlow1))

/-- `CashFlowFromOps`: `cash_flow_from_ops[-1] > roa[-1]`. -/
def cashFlowOpsFactor (d : PiotroskiData) : Nat := bool01 (decide (d.roa1 < d.cashFlowOps1))

/-- `LongTermDebtRatioChange`: `long_term_debt_ratio[-1] < long_term_debt_ratio[0]`. -/
def ltdChangeFactor (d : PiotroskiData) : Nat := bool01 (decide (d.ltd1 < d.ltd0))

/-- `CurrentDebtRatioChange`: `current_ratio[-1] > current_ratio[0]`. -/
def crChangeFactor (d : PiotroskiData) : Nat := bool01 (decide (d.cr0 < d.cr1))

/-- `SharesOutstandingChange`: `shares_outstanding[-1] <= shares_outstanding[0]`. -/
def sharesFactor (d : PiotroskiData) : Nat := bool01 (decide (d.so1 ≤ d.so0))

/-- `GrossMarginChange`: `gross_margin[-1] > gross_margin[0]`. -/
def gmChangeFactor (d : PiotroskiData) : Nat := bool01 (decide (d.gm0 < d.gm1))

/-- `AssetsTurnoverChange`: `assets_turnover[-1] > assets_turnover[0]`. -/
def atChangeFactor (d : PiotroskiData) : Nat := bool01 (decide (d.at0 < d.at1))

/-- The pipeline expression `piotroski = profit + leverage + operating` built
in `initialize` (lines 145-148) from the nine indicator factors. -/
def piotroskiScore (d : PiotroskiData) : Nat :=
  (roaFactor d + roaChangeFactor d + cashFlowFactor d + cashFlowOpsFactor d)
    + (ltdChangeFactor d + crChangeFactor d + sharesFactor d)
    + (gmChangeFactor d + atChangeFactor d)

/-- The data of one security that `pipe.set_screen` consults: its composite
score and its latest `ev_to_ebitda`. -/
structure ScreenRow : Type where
  score : Nat
  evToEbitda : ℚ
deriving DecidableEq

/-- The term `market_cap = morningstar.valuation.market_cap > 1e9` (line 151)
compares the column *object* (no `.latest`) with a float; under Python 2's
mixed-type ordering every number sorts below every non-numeric object, so the
term is the constant True. -/
def marketCapTerm : Bool := true

/-- `pipe.set_screen(((piotroski >= 7) | (piotroski <= 3)) & ev_ebitda &
market_cap)` (line 154): the dual score threshold is applied here, at the
filter stage. -/
def piotroskiScreen (r : ScreenRow) : Bool :=
  (decide (7 ≤ r.score) || decide (r.score ≤ 3)) && decide (0 < r.evToEbitda)
    && marketCapTerm

/-- Ordering of `(security, score)` rows by descending score, for
`sort_values('piotroski', ascending=False)`. -/
def rDescScore (a b : Nat × Nat) : Prop := b.2 ≤ a.2

/-- Ordering of `(security, score)` rows by ascending score, for
`sort_values('piotroski', ascending=True)`. -/
def rAscScore (a b : Nat × Nat) : Prop := a.2 ≤ b.2

instance : DecidableRel rDescScore :=
  fun a b => inferInstanceAs (Decidable (b.2 ≤ a.2))

instance : DecidableRel rAscScore :=
  fun a b => inferInstanceAs (Decidable (a.2 ≤ b.2))

instance : IsTotal (Nat × Nat) rDescScore := ⟨fun a b => Nat.le_total b.2 a.2⟩

instance : IsTotal (Nat × Nat) rAscScore := ⟨fun a b => Nat.le_total a.2 b.2⟩

instance : IsTrans (Nat × Nat) rDescScore := ⟨fun _ _ _ h1 h2 => Nat.le_trans h2 h1⟩

instance : IsTrans (Nat × Nat) rAscScore := ⟨fun _ _ _ h1 h2 => Nat.le_trans h1 h2⟩

instance : IsRefl (Nat × Nat) rDescScore := ⟨fun _ => Nat.le_refl _⟩

instance : IsRefl (Nat × Nat) rAscScore := ⟨fun _ => Nat.le_refl _⟩

/-- `context.long_stocks = context.results.sort_values('piotroski',
ascending=False).head(10)`, on `(security, score)` rows; the insertion sort
stands in for pandas' sort kind, which only affects tie order. -/
def longPicks (rows : List (Nat × Nat)) : List (Nat × Nat) :=
  (List.insertionSort rDescScore rows).take 10

/-- `context.short_stocks = context.results.sort_values('piotroski',
ascending=True).head(10)`. -/
def shortPicks (rows : List (Nat × Nat)) : List (Nat × Nat) :=
  (List.insertionSort rAscScore rows).take 10

/-- A concrete filtered pipeline output of twenty securities, ten with score 9
and ten with score 0. -/
def rows20 : List (Nat × Nat) :=
  [(0, 9), (1, 9), (2, 9), (3, 9), (4, 9), (5, 9), (6, 9), (7, 9), (8, 9),
    (9, 9), (10, 0), (11, 0), (12, 0), (13, 0), (14, 0), (15, 0), (16, 0),
    (17, 0), (18, 0), (19, 0)]

/-! ## Weight allocator guard against an empty selection
(`before_trading_start`, My_Magic_Formula.py lines 95-102 and `rebalance`,
My_Value_Long_only_Algo.py lines 118-125) -/

/-- Division as the scripts would execute it, with `none` marking an attempted
division by zero. -/
def safeDiv (a b : ℚ) : Option ℚ := if b = 0 then none else some (a / b)

/-- `MAX_GROSS_LEVERAGE = 1.0`. -/
def MAX_GROSS_LEVERAGE : ℚ := 1

/-- `MAX_LONG_POSITION_SIZE = 0.04`. -/
def MAX_LONG_POSITION_SIZE : ℚ := 4 / 100

/-- The guarded weight computation shared by both scripts: if the selection is
non-empty divide the gross leverage by its size, otherwise use weight 0; then
cap the result at 4%. -/
def longWeight (n : Nat) : Option ℚ :=
  (if n ≠ 0 then safeDiv MAX_GROSS_LEVERAGE n else some 0).map
    (fun w => if w > MAX_LONG_POSITION_SIZE then 4 / 100 else w)

/-! ## Liquidation of no-longer-selected positions
(`rebalance`, My_Value_Long_only_Algo.py lines 132-137 and `trade`,
Guy_Fleury_Piotroski-F-Score.py lines 192-200) -/

/-- The liquidation loop of `rebalance` in My_Value_Long_only_Algo: every held
security outside the long list gets `order_target(stock, 0)`, but only when
`data.can_trade(stock)` holds. -/
def valueSellOrders (positions longList : List Nat) (canTrade : Nat → Bool) :
    List (Nat × ℚ) :=
  (positions.filter (fun s => !longList.contains s && canTrade s)).map
    (fun s => (s, 0))

/-- The liquidation loop of `trade` in Guy_Fleury_Piotroski-F-Score: every
held security outside both selection lists gets `order_target_percent(stock,
0)`.  The loop never consults the platform's tradability predicate, which is
therefore an unused parameter here. -/
def piotroskiSellOrders (positions longS shortS : List Nat)
    (_canTrade : Nat → Bool) : List (Nat × ℚ) :=
  (positions.filter (fun s => !longS.contains s && !shortS.contains s)).map
    (fun s => (s, 0))

/-! ## Theorems -/

/-- Deduplication by as-of date leaves a list with pairwise-distinct dates
untouched. -/
theorem dedupByDateAux_of_nodup (l : List QPair) :
    ∀ seen : List Int, (∀ p ∈ l, p.2 ∉ seen) → (l.map Prod.snd).Nodup →
      dedupByDateAux seen l = l := by
  induction l with
  | nil => intro seen _ _; rfl
  | cons p rest ih =>
    intro seen hseen hnd
    have hp : p.2 ∉ seen := hseen p (List.mem_cons_self p rest)
    have hnd' : (p.2 ∉ rest.map Prod.snd) ∧ (rest.map Prod.snd).Nodup := by
      simpa [List.nodup_cons] using hnd
    rw [dedupByDateAux, if_neg hp]
    congr 1
    apply ih
    · intro q hq
      simp only [List.mem_cons]
      rintro (h | h)
      · exact hnd'.1 (h ▸ List.mem_map_of_mem Prod.snd hq)
      · exact hseen q (List.mem_cons_of_mem _ hq) h
    · exact hnd'.2

/-- C1: for every security column, the trailing-twelve-month factor sums the
quarterly values whose as-of date lies within 52 weeks of the last as-of date
of the window, one value per distinct as-of date with the first occurrence in
window order kept: with every date unique and in window the whole value column
is summed, so four values of 10 give 40 (witness) and five unique in-window
dates are all summed (no cap at four); a value at a duplicated as-of date is
excluded; a value dated outside the window is excluded. -/
theorem ttm_sums_unique_in_window_values :
    (∀ pairs : List QPair,
        (pairs.map Prod.snd).Nodup →
        (∀ p ∈ pairs, ttmMask ((pairs.map Prod.snd).getLastD 0) p.2 = true) →
        ttmFactor pairs = (pairs.map Prod.fst).sum)
    ∧ ttmFactor [(10, 100), (11, 150), (12, 150), (13, 200)] = 34
    ∧ ttmFactor [(1, 10), (2, 20), (3, 30), (4, 40), (5, 50)] = 15
    ∧ ttmFactor [(7, -300), (10, 0), (20, 36), (30, 364)] = 50 := by
  refine ⟨fun pairs hnd hall => ?_, by decide, by decide, by decide⟩
  simp only [ttmFactor]
  rw [List.filter_eq_self.mpr hall, dedupByDate,
    dedupByDateAux_of_nodup pairs [] (by simp) hnd]

/-- Witness for `ttm_sums_unique_in_window_values`: four unique in-window
quarterly values of 10 sum to 40. -/
theorem ttm_sums_unique_in_window_values_witness :
    ttmFactor [(10, 0), (10, 91), (10, 182), (10, 273)] = 40 :=
  (ttm_sums_unique_in_window_values.1 [(10, 0), (10, 91), (10, 182), (10, 273)]
    (by decide) (by decide)).trans (by decide)

/-- The maximum-accumulated index row makes the masked assignment compute a
forward fill: reading cells of `full` through the accumulated indices of a
row suffix agreeing with `full` from offset `k` reproduces the carry-based
fill, provided the carry `c` is the cell the accumulator `a` points at (or the
suffix starts fresh with an empty carry). -/
theorem maxAccum_markIdx_ffill (full : List Cell) :
    ∀ (row : List Cell) (a k : Nat) (c : Cell),
      (∀ i, full.getD (k + i) none = row.getD i none) →
      a ≤ k →
      (full.getD a none = c ∨ (a = k ∧ c = none)) →
      ((row.zip (maxAccum a (markIdx k row))).map
          (fun p => if p.1.isSome then p.1 else full.getD p.2 none)) =
        ffillCarry c row := by
  intro row
  induction row with
  | nil => intro a k c _ _ _; rfl
  | cons v vs ih =>
    intro a k c hagree hak hinv
    have hfullk : full.getD k none = v := by
      have h0 := hagree 0
      simpa using h0
    have hagree' : ∀ i, full.getD (k + 1 + i) none = vs.getD i none := by
      intro i
      have h1 := hagree (i + 1)
      have h2 : k + 1 + i = k + (i + 1) := by omega
      rw [h2]
      simpa using h1
    cases v with
    | some x =>
      have hmax : max a k = k := Nat.max_eq_right hak
      simp only [markIdx, maxAccum, List.zip_cons_cons, List.map_cons,
        ffillCarry, Option.isSome_some, if_true, hmax]
      exact congrArg (List.cons (some x))
        (ih k (k + 1) (some x) hagree' (Nat.le_succ k) (Or.inl hfullk))
    | none =>
      have hmax : max a 0 = a := Nat.max_eq_left (Nat.zero_le a)
      have hc : full.getD a none = c := by
        rcases hinv with h | ⟨rfl, rfl⟩
        · exact h
        · exact hfullk
      simp only [markIdx, maxAccum, List.zip_cons_cons, List.map_cons,
        ffillCarry, Option.isSome_none, Bool.false_eq_true, if_false, hmax]
      rw [hc]
      exact congrArg (List.cons c)
        (ih a (k + 1) c hagree' (Nat.le_succ_of_le hak) (Or.inl hc))

/-- Each row of `nanfill` is exactly the textbook forward fill of that row. -/
theorem nanfillRow_eq_ffill (row : List Cell) :
    nanfillRow row = ffillCarry none row :=
  maxAccum_markIdx_ffill row row 0 0 none (fun i => by simp) (Nat.le_refl 0)
    (Or.inr ⟨rfl, rfl⟩)

/-- C2 counterexample: a five-row single-security window holding the spec's
column [NaN, 2, NaN, NaN, 5] is returned unchanged by `nanfill`; it is not
forward-filled along time to [NaN, 2, 2, 2, 5]. -/
theorem nanfill_time_column_unchanged :
    nanfill [[none], [some 2], [none], [none], [some 5]] ≠
      [[none], [some 2], [some 2], [some 2], [some 5]] := by decide

/-- C2 amended: `nanfill` forward-fills along each time row (the security
axis), not along each security column: every row of the window is
independently replaced by its textbook forward fill, so a NaN takes the most
recent non-NaN value to its left in the same row and a NaN with no earlier
non-NaN value in its row stays NaN; a single-row window [NaN, 2, NaN, NaN, 5]
becomes [NaN, 2, 2, 2, 5], while the same values laid out as a five-row
single-security column are returned unchanged. -/
theorem nanfill_fills_along_rows :
    (∀ arr : List (List Cell), nanfill arr = arr.map (ffillCarry none))
    ∧ nanfill [[none, some 2, none, none, some 5]] =
        [[none, some 2, some 2, some 2, some 5]]
    ∧ nanfill [[none], [some 2], [none], [none], [some 5]] =
        [[none], [some 2], [none], [none], [some 5]] := by
  refine ⟨fun arr => ?_, by decide, by decide⟩
  unfold nanfill
  rw [show nanfillRow = ffillCarry none from funext nanfillRow_eq_ffill]

/-- C10: `nanfill` hands back the very reference it was given, and after the
call the caller's array holds the filled contents: the factor computations
calling it thus overwrite the platform-supplied input window.  The concrete
window [[1, NaN]] really is changed in place. -/
theorem nanfill_in_place :
    (∀ (h : Heap) (r : Nat), r < h.length →
        (callNanfill h r).2 = r ∧
          (callNanfill h r).1.getD (callNanfill h r).2 [] =
            nanfill (h.getD r []))
    ∧ (callNanfill [[[some 1, none]]] 0).1 = [[[some 1, some 1]]] := by
  refine ⟨fun h r hr => ⟨rfl, ?_⟩, by decide⟩
  show (h.set r (nanfill (h.getD r []))).getD r [] = nanfill (h.getD r [])
  rw [List.getD_eq_getElem?_getD, List.getElem?_set_self, Option.getD_some]
  exact hr

/-- Witness for `nanfill_in_place` at a one-array heap. -/
theorem nanfill_in_place_witness :
    0 < ([[[some 1, none]]] : Heap).length ∧
      ((callNanfill [[[some 1, none]]] 0).2 = 0 ∧
        (callNanfill [[[some 1, none]]] 0).1.getD
            (callNanfill [[[some 1, none]]] 0).2 [] =
          nanfill (([[[some 1, none]]] : Heap).getD 0 [])) :=
  ⟨by decide, nanfill_in_place.1 [[[some 1, none]]] 0 (by decide)⟩

/-- C3 counterexample: EBIT 1 over enterprise value 0 yields positive
infinity, not NaN, so a security with a zero denominator and nonzero
numerator does not get a NaN ratio output. -/
theorem earnings_yield_zero_denominator_not_nan :
    earningsYieldCompute [FVal.fin 1] [FVal.fin 0] = [FVal.inf false] ∧
      (FVal.inf false).isNan = false := by decide

/-- C3 amended: the ratio division is NaN exactly when the numerator is NaN,
the denominator is NaN, both operands are zero, or both are infinite — a zero
denominator under a nonzero finite numerator yields a signed infinity instead;
the elementwise batch computation is total and never aborts (every pair of
input columns yields an output column of the expected length); and a security
whose earnings-yield value is NaN never appears in the selection, its row
being dropped by `dropna()`. -/
theorem ratio_nan_propagation :
    (∀ x y : FVal, (fdiv x y).isNan = true ↔
        (x.isNan = true ∨ y.isNan = true ∨ (x.isZero = true ∧ y.isZero = true)
          ∨ (x.isInf = true ∧ y.isInf = true)))
    ∧ (∀ ebit ev : List FVal,
        (earningsYieldCompute ebit ev).length = min ebit.length ev.length)
    ∧ (∀ rows : List ERow, ∀ r ∈ buyList rows, r.ey.isNan = false) := by
  refine ⟨fun x y => ?_, fun ebit ev => List.length_zipWith fdiv ebit ev,
    fun rows r hr => ?_⟩
  · rcases x with _ | s | q <;> rcases y with _ | t | p <;>
      simp [fdiv, FVal.isNan, FVal.isZero, FVal.isInf]
    by_cases hp : p = 0 <;> by_cases hq : q = 0 <;>
      simp [hp, hq, FVal.isNan]
  · have hcond := (List.mem_filter.mp hr).2
    simp only [Bool.and_eq_true, Bool.not_eq_true'] at hcond
    exact hcond.1

/-- Witness for `ratio_nan_propagation`: a concrete one-row pipeline output
whose sole security survives into the buy list with a non-NaN earnings
yield. -/
theorem ratio_nan_propagation_witness :
    (⟨0, FVal.fin 1, FVal.fin 1⟩ : ERow) ∈
        buyList [⟨0, FVal.fin 1, FVal.fin 1⟩] ∧
      (FVal.fin 1).isNan = false :=
  ⟨by decide,
    ratio_nan_propagation.2.2 [⟨0, FVal.fin 1, FVal.fin 1⟩]
      ⟨0, FVal.fin 1, FVal.fin 1⟩ (by decide)⟩

/-- C4: the sector-exclusion predicate of My_Magic_Formula is vacuous.  The
expression compares the classifier class object itself with the int codes,
which Python decides as True without consulting any security, so the filtered
universe is determined by tradability, non-null sector and market cap alone
and securities of the financial (103) and utility (207) sectors pass the
screen. -/
theorem sector_exclusion_vacuous :
    (∀ s : SecInfo, magicUniverse s =
        (s.qTradable && s.sectorCode.isSome &&
          decide (1000000000 < s.marketCap)))
    ∧ magicUniverse ⟨true, some 103, 2000000000⟩ = true
    ∧ magicUniverse ⟨true, some 207, 2000000000⟩ = true := by
  refine ⟨fun s => ?_, by decide, by decide⟩
  have h : not_Finan_and_Ulti = true := by decide
  simp [magicUniverse, h]

/-- Once an anchor month other than −1 is recorded, an invocation of the
rebalance callback fires exactly when its scheduled month equals the
anchor. -/
theorem runRebalances_anchored (m : Int) (hm : ¬ m = -1) :
    ∀ ms : List Int, runRebalances ⟨m⟩ ms = ms.map (fun x => m == x) := by
  intro ms
  induction ms with
  | nil => rfl
  | cons x xs ih =>
    simp only [runRebalances, rebalanceStep, if_neg hm, List.map_cons]
    exact congrArg _ ih

/-- C5: starting from the context built by `initialize`
(`month_to_run = -1`), the first invocation of `rebalance` submits orders and
records its calendar month as the anchor, and every subsequent invocation
submits orders exactly when its calendar month equals that anchor. -/
theorem anchor_month_gating (m : Int) (ms : List Int) (hm : 1 ≤ m) :
    runRebalances initBlackCatCtx (m :: ms) =
      true :: ms.map (fun x => m == x) := by
  have hm' : ¬ m = -1 := by omega
  simp only [runRebalances, initBlackCatCtx, rebalanceStep, if_pos rfl]
  exact congrArg _ (runRebalances_anchored m hm' ms)

/-- Witness for `anchor_month_gating`: anchored in April, a May invocation is
skipped and the next April invocation fires. -/
theorem anchor_month_gating_witness :
    runRebalances initBlackCatCtx [4, 5, 4] = [true, false, true] :=
  (anchor_month_gating 4 [5, 4] (by decide)).trans (by decide)

/-- C6 counterexample: a rebalance whose pipeline list holds a single
tradable security submits a weight map summing to 0.0396, not 0.99. -/
theorem equal_weight_sum_short_map :
    ((buildWeights [0] (fun _ => true)).map Prod.snd).sum ≠ 99 / 100 := by
  simp only [buildWeights, List.filter, List.map, List.sum_cons, List.sum_nil]
  norm_num

/-- C6 amended: every entry of the submitted weight map is exactly
0.99 / 25 = 99/2500 = 0.0396, and the weights sum to 0.0396 times the number
of tradable securities of the pipeline list — hence to 0.99 exactly when that
number is 25, and to less when fewer selected securities are tradable. -/
theorem equal_weight_allocation :
    (∀ (secs : List Nat) (canTrade : Nat → Bool) (w : ℚ),
        w ∈ (buildWeights secs canTrade).map Prod.snd → w = 99 / 2500)
    ∧ (∀ (secs : List Nat) (canTrade : Nat → Bool),
        ((buildWeights secs canTrade).map Prod.snd).sum =
          (99 / 2500) * (secs.filter canTrade).length)
    ∧ (∀ (secs : List Nat) (canTrade : Nat → Bool),
        (secs.filter canTrade).length = 25 →
        ((buildWeights secs canTrade).map Prod.snd).sum = 99 / 100) := by
  have hc : (99 / 100 : ℚ) / 25 = 99 / 2500 := by norm_num
  have hmap : ∀ (secs : List Nat) (canTrade : Nat → Bool),
      (buildWeights secs canTrade).map Prod.snd =
        List.replicate (secs.filter canTrade).length ((99 : ℚ) / 2500) := by
    intro secs canTrade
    simp [buildWeights, List.map_map, Function.comp_def, hc,
      List.map_const']
  have hsum : ∀ (secs : List Nat) (canTrade : Nat → Bool),
      ((buildWeights secs canTrade).map Prod.snd).sum =
        (99 / 2500) * (secs.filter canTrade).length := by
    intro secs canTrade
    rw [hmap, List.sum_replicate, nsmul_eq_mul, mul_comm]
  refine ⟨fun secs canTrade w hw => ?_, hsum, fun secs canTrade h25 => ?_⟩
  · rw [hmap] at hw
    exact List.eq_of_mem_replicate hw
  · rw [hsum, h25]
    norm_num

/-- Witness for `equal_weight_allocation`: with 25 tradable securities the
submitted weights sum to 0.99. -/
theorem equal_weight_allocation_witness :
    ((List.range 25).filter (fun _ => true)).length = 25 ∧
      ((buildWeights (List.range 25) (fun _ => true)).map Prod.snd).sum =
        99 / 100 :=
  ⟨by decide,
    equal_weight_allocation.2.2 (List.range 25) (fun _ => true) (by decide)⟩

/-- An `astype(int)` indicator contributes at most one point. -/
theorem bool01_le_one (b : Bool) : bool01 b ≤ 1 := by
  cases b <;> simp [bool01]

/-- C7 counterexample: with a single filtered row, the long and the short
head-10 selections are the same singleton — they are not disjoint. -/
theorem long_short_picks_overlap :
    (0, 9) ∈ longPicks [(0, 9)] ∧ (0, 9) ∈ shortPicks [(0, 9)] := by decide

/-- C7 amended: inclusion is decided at the filter stage by the dual threshold
score ≥ 7 or score ≤ 3 on the composite score, which is bounded by 9; the
long and the short head-10 selections coincide as sets whenever the filtered
output has at most ten rows, and they are disjoint provided the output has at
least twenty rows and the tenth-lowest score is strictly below the
tenth-highest score. -/
theorem long_short_structure :
    (∀ r : ScreenRow, piotroskiScreen r = true → 7 ≤ r.score ∨ r.score ≤ 3)
    ∧ (∀ d : PiotroskiData, piotroskiScore d ≤ 9)
    ∧ (∀ rows : List (Nat × Nat), rows.length ≤ 10 →
        ∀ p : Nat × Nat, (p ∈ longPicks rows ↔ p ∈ rows) ∧
          (p ∈ shortPicks rows ↔ p ∈ rows))
    ∧ (∀ (rows : List (Nat × Nat)) (d : Nat × Nat), 20 ≤ rows.length →
        ((List.insertionSort rAscScore rows).getD 9 d).2 <
          ((List.insertionSort rDescScore rows).getD 9 d).2 →
        ∀ p : Nat × Nat, p ∈ longPicks rows → p ∈ shortPicks rows → False) := by
  refine ⟨fun r hscr => ?_, fun d => ?_, fun rows hlen p => ?_,
    fun rows d hlen hsep p hpl hps => ?_⟩
  · simp only [piotroskiScreen, marketCapTerm, Bool.and_true, Bool.and_eq_true,
      Bool.or_eq_true, decide_eq_true_eq] at hscr
    exact hscr.1
  · have h1 : roaFactor d ≤ 1 := bool01_le_one _
    have h2 : roaChangeFactor d ≤ 1 := bool01_le_one _
    have h3 : cashFlowFactor d ≤ 1 := bool01_le_one _
    have h4 : cashFlowOpsFactor d ≤ 1 := bool01_le_one _
    have h5 : ltdChangeFactor d ≤ 1 := bool01_le_one _
    have h6 : crChangeFactor d ≤ 1 := bool01_le_one _
    have h7 : sharesFactor d ≤ 1 := bool01_le_one _
    have h8 : gmChangeFactor d ≤ 1 := bool01_le_one _
    have h9 : atChangeFactor d ≤ 1 := bool01_le_one _
    unfold piotroskiScore
    omega
  · have e1 : longPicks rows = List.insertionSort rDescScore rows := by
      unfold longPicks
      exact List.take_of_length_le (by rw [List.length_insertionSort]; exact hlen)
    have e2 : shortPicks rows = List.insertionSort rAscScore rows := by
      unfold shortPicks
      exact List.take_of_length_le (by rw [List.length_insertionSort]; exact hlen)
    rw [e1, e2]
    simp
  · have hLsorted := List.sorted_insertionSort rDescScore rows
    have hSsorted := List.sorted_insertionSort rAscScore rows
    have hLlen : (List.insertionSort rDescScore rows).length = rows.length :=
      List.length_insertionSort rDescScore rows
    have hSlen : (List.insertionSort rAscScore rows).length = rows.length :=
      List.length_insertionSort rAscScore rows
    have h9L : 9 < (List.insertionSort rDescScore rows).length := by omega
    have h9S : 9 < (List.insertionSort rAscScore rows).length := by omega
    obtain ⟨i, hi, hip⟩ := List.mem_take_iff_getElem.mp hpl
    obtain ⟨j, hj, hjp⟩ := List.mem_take_iff_getElem.mp hps
    have hi9 : i ≤ 9 := by have := lt_min_iff.mp hi; omega
    have hj9 : j ≤ 9 := by have := lt_min_iff.mp hj; omega
    have hiL : i < (List.insertionSort rDescScore rows).length := by
      have := lt_min_iff.mp hi; omega
    have hjS : j < (List.insertionSort rAscScore rows).length := by
      have := lt_min_iff.mp hj; omega
    have hrelL : rDescScore ((List.insertionSort rDescScore rows).get ⟨i, hiL⟩)
        ((List.insertionSort rDescScore rows).get ⟨9, h9L⟩) :=
      hLsorted.rel_get_of_le (by exact hi9)
    have hrelS : rAscScore ((List.insertionSort rAscScore rows).get ⟨j, hjS⟩)
        ((List.insertionSort rAscScore rows).get ⟨9, h9S⟩) :=
      hSsorted.rel_get_of_le (by exact hj9)
    have hgL : (List.insertionSort rDescScore rows).getD 9 d =
        (List.insertionSort rDescScore rows)[9] := by
      rw [List.getD_eq_getElem?_getD, List.getElem?_eq_getElem h9L,
        Option.getD_some]
    have hgS : (List.insertionSort rAscScore rows).getD 9 d =
        (List.insertionSort rAscScore rows)[9] := by
      rw [List.getD_eq_getElem?_getD, List.getElem?_eq_getElem h9S,
        Option.getD_some]
    rw [hgL, hgS] at hsep
    have hA : ((List.insertionSort rDescScore rows)[9]).2 ≤ p.2 := by
      have : ((List.insertionSort rDescScore rows).get ⟨i, hiL⟩) = p := hip
      rw [← this]
      exact hrelL
    have hB : p.2 ≤ ((List.insertionSort rAscScore rows)[9]).2 := by
      have : ((List.insertionSort rAscScore rows).get ⟨j, hjS⟩) = p := hjp
      rw [← this]
      exact hrelS
    omega

/-- Witness for `long_short_structure`: the twenty-row filtered output
`rows20` has strictly separated score deciles, and its long and short picks
are disjoint. -/
theorem long_short_structure_witness :
    20 ≤ rows20.length ∧
      ((List.insertionSort rAscScore rows20).getD 9 (0, 0)).2 <
        ((List.insertionSort rDescScore rows20).getD 9 (0, 0)).2 ∧
      List.Disjoint (longPicks rows20) (shortPicks rows20) :=
  ⟨by decide, by decide,
    fun p hpl hps =>
      long_short_structure.2.2.2 rows20 (0, 0) (by decide) (by decide)
        p hpl hps⟩

/-- C8: the guarded weight computation never attempts a division by zero (its
`Option` result is always `some`), and an empty selection yields weight zero
instead of dividing by the zero selection size. -/
theorem empty_selection_weight_zero :
    (∀ n : Nat, (longWeight n).isSome = true) ∧ longWeight 0 = some 0 := by
  constructor
  · intro n
    by_cases h : n = 0
    · subst h
      simp [longWeight]
    · simp [longWeight, safeDiv, Nat.cast_eq_zero, h]
  · simp only [longWeight, ne_eq, not_true_eq_false, if_false, Option.map_some']
    norm_num [MAX_LONG_POSITION_SIZE]

/-- C9 counterexample: in the Piotroski script's `trade`, a held security
absent from both selection lists receives a target-0 order even when the
platform's tradability predicate rejects every security. -/
theorem piotroski_sell_ignores_tradability :
    piotroskiSellOrders [3] [] [] (fun _ => false) = [(3, 0)] := rfl

/-- C9 amended: in the Value script's rebalance, a held security outside the
long list receives a target-0 order exactly when it is tradable, and no order
of any kind is placed there for an untradable security; the Piotroski
script's `trade`, however, places its target-0 liquidation orders for held
securities outside both selection lists without consulting tradability. -/
theorem liquidation_orders :
    (∀ (positions longList : List Nat) (canTrade : Nat → Bool) (s : Nat),
        ((s, (0 : ℚ)) ∈ valueSellOrders positions longList canTrade ↔
          s ∈ positions ∧ s ∉ longList ∧ canTrade s = true))
    ∧ (∀ (positions longList : List Nat) (canTrade : Nat → Bool) (s : Nat)
        (q : ℚ), canTrade s = false →
        (s, q) ∉ valueSellOrders positions longList canTrade)
    ∧ (∀ (positions longS shortS : List Nat) (canTrade : Nat → Bool)
        (s : Nat), s ∈ positions → s ∉ longS → s ∉ shortS →
        (s, (0 : ℚ)) ∈ piotroskiSellOrders positions longS shortS canTrade) := by
  refine ⟨fun positions longList canTrade s => ?_,
    fun positions longList canTrade s q hct hmem => ?_,
    fun positions longS shortS canTrade s h1 h2 h3 => ?_⟩
  · simp only [valueSellOrders, List.mem_map, List.mem_filter,
      Bool.and_eq_true, Bool.not_eq_true', ← Bool.not_eq_true,
      List.elem_iff, Prod.mk.injEq]
    constructor
    · rintro ⟨a, ⟨ha, hnl, hct⟩, rfl, -⟩
      exact ⟨ha, by simpa using hnl, hct⟩
    · rintro ⟨h1', h2', h3'⟩
      exact ⟨s, ⟨h1', by simpa using h2', h3'⟩, rfl, trivial⟩
  · simp [valueSellOrders, List.mem_filter, List.elem_iff] at hmem
    obtain ⟨a, ⟨-, -, hct'⟩, ha, -⟩ := hmem
    rw [ha] at hct'
    rw [hct] at hct'
    exact Bool.false_ne_true hct'
  · refine List.mem_map.mpr ⟨s, List.mem_filter.mpr ⟨h1, ?_⟩, rfl⟩
    simp [List.elem_iff, h2, h3]

/-- Witness for `liquidation_orders`: with only security 5 held and empty
selection lists, the Piotroski liquidation emits its target-0 order although
tradability is denied everywhere. -/
theorem liquidation_orders_witness :
    5 ∈ [5] ∧ (5 ∉ ([] : List Nat)) ∧
      (5, (0 : ℚ)) ∈ piotroskiSellOrders [5] [] [] (fun _ => false) :=
  ⟨by decide, by decide,
    liquidation_orders.2.2 [5] [] [] (fun _ => false) 5 (by decide) (by decide)
      (by decide)⟩
